import Mathlib

/-!
Verification of the RedisLogger Redis-proxy core: a shallow embedding of the
RESP protocol parser (package `protocol`, `parser.go`) and of the command
classifier embedded in `proxy.handleConnection` (`proxy.go`), together with
theorems about decoding, raw-byte preservation and classification.

Byte streams are modelled as `List Nat` (one entry per byte, values 0..255).
Go strings are byte strings, so `Command.Name` and the arguments are also
`List Nat`.  The blocking `io.Reader` is modelled by explicit state passing:
a read consumes a prefix of the list, and a read issued on the empty list is
the `io.EOF` error of a closed stream (for a finite stream every read either
returns at least one byte or fails with EOF, matching `bytes.Reader` /
`net.Conn` semantics).
-/

namespace RedisLogger

/-- ASCII bytes of a Lean string literal, used to write concrete byte
sequences readably.  All literals used in this file are ASCII, where UTF-8
bytes coincide with the code points. -/
def ascii (s : String) : List Nat :=
  s.data.map Char.toNat

/-- The CRLF line terminator bytes. -/
def crlf : List Nat := [13, 10]

/-- `protocol.Command`: a parsed Redis command.  `Name`, `Message` (the raw
bytes) and `Args` mirror the Go struct fields. -/
structure Command where
  Name : List Nat
  Message : List Nat
  Args : List (List Nat)
deriving DecidableEq

/-- Outcome of `(*Parser).ReadCommand` on a given stream: success carries the
command and the not-yet-consumed rest of the stream; `err` is any returned Go
error; `panicked` marks a Go runtime panic (e.g. `make` with negative size). -/
inductive PResult where
  | ok : Command → List Nat → PResult
  | err : PResult
  | panicked : PResult
deriving DecidableEq

/-- `io.ReadFull(reader, make([]byte, n))`: returns exactly `n` bytes or
fails (with `io.EOF`/`io.ErrUnexpectedEOF` on a short stream). -/
def readFull : Nat → List Nat → Option (List Nat × List Nat)
  | 0, s => some ([], s)
  | _ + 1, [] => none
  | n + 1, b :: rest => (readFull n rest).map (fun p => (b :: p.1, p.2))

/-- `reader.Read(make([]byte, 2))` as used for the CRLF terminator after a
bulk-string payload: a single `Read` call returns up to two bytes; it returns
an error only when the stream is already at EOF.  The parser ignores both the
byte count and the byte values, so only the remaining stream matters. -/
def goRead2 : List Nat → Option (List Nat)
  | [] => none
  | [_] => some []
  | _ :: _ :: rest => some rest

/-- `(*Parser).readUntilCRLF`: read byte by byte until the accumulated line
ends in CR LF; return the line without the terminator.  Fails if the stream
ends first. -/
def readUntilCRLF : List Nat → Option (List Nat × List Nat)
  | [] => none
  | [_] => none
  | b :: c :: rest =>
    if b = 13 ∧ c = 10 then some ([], rest)
    else (readUntilCRLF (c :: rest)).map (fun p => (b :: p.1, p.2))

/-- ASCII decimal digit test, for the `%d` verb of `fmt.Fscanf`. -/
def isDigit (b : Nat) : Bool :=
  if 48 ≤ b ∧ b ≤ 57 then true else false

/-- Longest digit prefix of a stream together with the rest, for `%d`. -/
def takeDigits : List Nat → List Nat × List Nat
  | [] => ([], [])
  | b :: rest =>
    if isDigit b then (b :: (takeDigits rest).1, (takeDigits rest).2)
    else ([], b :: rest)

/-- Numeric value of a list of ASCII digit bytes, most significant first. -/
def digitsToNat (ds : List Nat) : Nat :=
  ds.foldl (fun acc d => acc * 10 + (d - 48)) 0

/-- Matching the trailing `\r\n` of an `fmt.Fscanf` format string: the fmt
scanner canonicalises CR LF to LF in both format and input, so the format
terminator accepts either CR LF or a bare LF. -/
def matchCRLF : List Nat → Option (List Nat)
  | [] => none
  | b :: rest =>
    if b = 13 then
      match rest with
      | [] => none
      | c :: r => if c = 10 then some r else none
    else if b = 10 then some rest else none

/-- Core of `fmt.Fscanf(reader, "%d\r\n", &x)` after the optional sign: at
least one digit, 64-bit signed range check (`%d` scans into a Go `int`, so
values outside int64 fail with a range error; 9223372036854775808 = 2^63),
then the format's line terminator. -/
def scanIntFrom (neg : Bool) (t : List Nat) : Option (Int × List Nat) :=
  if (takeDigits t).1 = [] then none
  else
    let m : Int := (digitsToNat (takeDigits t).1 : Int)
    let v : Int := if neg then -m else m
    if v < -9223372036854775808 ∨ 9223372036854775808 ≤ v then none
    else
      match matchCRLF (takeDigits t).2 with
      | none => none
      | some r => some (v, r)

/-- `fmt.Fscanf(reader, "%d\r\n", &x)`: optional `-`/`+` sign, digits,
terminator.  Returns the scanned value and the rest of the stream, or `none`
for any scan error. -/
def scanIntCRLF (s : List Nat) : Option (Int × List Nat) :=
  match s with
  | [] => none
  | b :: rest =>
    if b = 45 then scanIntFrom true rest
    else if b = 43 then scanIntFrom false rest
    else scanIntFrom false (b :: rest)

/-- `fmt.Fscanf(reader, "$%d\r\n", &x)`: the literal `$` then a number. -/
def scanDollarIntCRLF (s : List Nat) : Option (Int × List Nat) :=
  match s with
  | [] => none
  | b :: rest => if b = 36 then scanIntCRLF rest else none

/-- Decimal digits of a natural number as ASCII bytes, most significant
first (`fmt.Sprintf("%d", n)` for `n ≥ 0`).  Fuel-based so that it is
structurally recursive; `natDigits` supplies sufficient fuel. -/
def natDigitsAux : Nat → Nat → List Nat
  | 0, _ => []
  | fuel + 1, n =>
    if n < 10 then [48 + n]
    else natDigitsAux fuel (n / 10) ++ [48 + n % 10]

/-- Decimal digits of a natural number as ASCII bytes. -/
def natDigits (n : Nat) : List Nat :=
  natDigitsAux (n + 1) n

/-- `fmt.Sprintf("%d", i)` for a Go int, as ASCII bytes. -/
def asciiInt (i : Int) : List Nat :=
  if i < 0 then 45 :: natDigits i.natAbs else natDigits i.toNat

/-- The argument loop of `(*Parser).parseArray`
(`for i := 1; i < argCount; i++`): `k` is the number of arguments still to
read, `s` the stream, `buf` the accumulated raw bytes, `args` the arguments
collected so far, `name` the already-read command name. -/
def parseArgs (name : List Nat) : Nat → List Nat → List Nat → List (List Nat) → PResult
  | 0, s, buf, args => .ok ⟨name, buf, args⟩ s
  | k + 1, s, buf, args =>
    match scanDollarIntCRLF s with
    | none => .err
    | some (argLen, s1) =>
      let buf1 := buf ++ [36] ++ asciiInt argLen ++ crlf
      if argLen < 0 then .panicked
      else
        match readFull argLen.toNat s1 with
        | none => .err
        | some (arg, s2) =>
          match goRead2 s2 with
          | none => .err
          | some s3 => parseArgs name k s3 (buf1 ++ arg ++ crlf) (args ++ [arg])

/-- `(*Parser).parseArray`: argument count, command name, then the remaining
arguments.  `buf` already holds the `*` header byte.  The scanned lengths are
re-serialised with `fmt.Sprintf` into the raw buffer, and the two bytes after
each payload are consumed unchecked while literal CR LF is appended to the
buffer, exactly as in the source.  `make([]byte, n)` with negative `n`
panics. -/
def parseArray (s : List Nat) (buf : List Nat) : PResult :=
  match scanIntCRLF s with
  | none => .err
  | some (argCount, s1) =>
    let buf1 := buf ++ asciiInt argCount ++ crlf
    if argCount < 1 then .err
    else
      match scanDollarIntCRLF s1 with
      | none => .err
      | some (cmdLen, s2) =>
        let buf2 := buf1 ++ [36] ++ asciiInt cmdLen ++ crlf
        if cmdLen < 0 then .panicked
        else
          match readFull cmdLen.toNat s2 with
          | none => .err
          | some (cmd, s3) =>
            match goRead2 s3 with
            | none => .err
            | some s4 => parseArgs cmd ((argCount - 1).toNat) s4 (buf2 ++ cmd ++ crlf) []

/-- `(*Parser).parseBulkString`: length, `-1` short-circuits to the nil
command, otherwise the payload plus an unchecked two-byte terminator.
`make([]byte, n)` with a negative `n` other than `-1` panics. -/
def parseBulkString (s : List Nat) (buf : List Nat) : PResult :=
  match scanIntCRLF s with
  | none => .err
  | some (length, s1) =>
    let buf1 := buf ++ asciiInt length ++ crlf
    if length = -1 then .ok ⟨ascii "nil", buf1, []⟩ s1
    else if length < 0 then .panicked
    else
      match readFull length.toNat s1 with
      | none => .err
      | some (str, s2) =>
        match goRead2 s2 with
        | none => .err
        | some s3 => .ok ⟨str, buf1 ++ str ++ crlf, []⟩ s3

/-- `(*Parser).parseSimpleString`: the line before CRLF is the name. -/
def parseSimpleString (s : List Nat) (buf : List Nat) : PResult :=
  match readUntilCRLF s with
  | none => .err
  | some (line, rest) => .ok ⟨line, buf ++ line ++ crlf, []⟩ rest

/-- `(*Parser).parseError`: like a simple string but the name is prefixed
with the literal `ERROR: `. -/
def parseError (s : List Nat) (buf : List Nat) : PResult :=
  match readUntilCRLF s with
  | none => .err
  | some (line, rest) => .ok ⟨ascii "ERROR: " ++ line, buf ++ line ++ crlf, []⟩ rest

/-- `(*Parser).parseInteger`: the line before CRLF is the name. -/
def parseInteger (s : List Nat) (buf : List Nat) : PResult :=
  match readUntilCRLF s with
  | none => .err
  | some (line, rest) => .ok ⟨line, buf ++ line ++ crlf, []⟩ rest

/-- `(*Parser).ReadCommand`: read the type byte and dispatch.  An unknown
leading byte is the `unknown protocol type` error. -/
def readCommand (s : List Nat) : PResult :=
  match s with
  | [] => .err
  | b :: rest =>
    if b = 42 then parseArray rest [b]
    else if b = 36 then parseBulkString rest [b]
    else if b = 43 then parseSimpleString rest [b]
    else if b = 45 then parseError rest [b]
    else if b = 58 then parseInteger rest [b]
    else .err

/-- `strings.ToUpper` restricted to ASCII bytes (a..z mapped to A..Z); all
command names compared by the classifier are ASCII. -/
def upperBytes (s : List Nat) : List Nat :=
  s.map (fun b => if 97 ≤ b ∧ b ≤ 122 then b - 32 else b)

/-- A structured log field as built in `proxy.handleConnection`:
`string` is `zap.String(key, value)`, `strings` is `zap.Strings(key, values)`. -/
inductive ZapField where
  | string : List Nat → List Nat → ZapField
  | strings : List Nat → List (List Nat) → ZapField
deriving DecidableEq

/-- The SET-option scan of `handleConnection`
(`for i := 2; i < len(cmd.Args); i++`): `EX`/`PX`/`EXAT`/`PXAT` consume the
following argument as `TOKEN=value` (61 is `=`; the token is emitted
uppercased, the value verbatim) and skip it; `NX`/`XX`/`KEEPTTL` stand alone
(emitted uppercased); anything else is ignored.  A value-taking token in last
position appends nothing (`i+1 < len` fails). -/
def setOptions : List (List Nat) → List (List Nat)
  | [] => []
  | a :: rest =>
    if upperBytes a ∈ [ascii "EX", ascii "PX", ascii "EXAT", ascii "PXAT"] then
      match rest with
      | [] => []
      | v :: rest2 => (upperBytes a ++ 61 :: v) :: setOptions rest2
    else if upperBytes a ∈ [ascii "NX", ascii "XX", ascii "KEEPTTL"] then
      upperBytes a :: setOptions rest
    else setOptions rest

/-- The ZADD pair loop of `handleConnection`
(`for i := 1; i < len(cmd.Args); i += 2`): consecutive args paired as
`score=member` (61 is `=`); a trailing unpaired arg is dropped. -/
def zaddPairs : List (List Nat) → List (List Nat)
  | a :: b :: rest => (a ++ 61 :: b) :: zaddPairs rest
  | _ => []

/-- The command families of the `switch strings.ToUpper(cmd.Name)` statement
in `handleConnection`. -/
inductive Family where
  | set | getKeys | singleKey | incr | hash | push | setFamily | zadd | other
deriving DecidableEq

/-- Dispatch of the `switch strings.ToUpper(cmd.Name)` statement. -/
def familyOf (up : List Nat) : Family :=
  if up = ascii "SET" then .set
  else if up = ascii "GET" ∨ up = ascii "MGET" then .getKeys
  else if up ∈ [ascii "DEL", ascii "EXISTS", ascii "EXPIRE", ascii "TTL",
      ascii "PTTL", ascii "PERSIST", ascii "TYPE"] then .singleKey
  else if up ∈ [ascii "INCR", ascii "DECR", ascii "INCRBY", ascii "DECRBY",
      ascii "INCRBYFLOAT"] then .incr
  else if up ∈ [ascii "HSET", ascii "HGET", ascii "HDEL", ascii "HEXISTS",
      ascii "HINCRBY", ascii "HINCRBYFLOAT"] then .hash
  else if up ∈ [ascii "LPUSH", ascii "RPUSH", ascii "LPUSHX", ascii "RPUSHX"] then .push
  else if up ∈ [ascii "SADD", ascii "SREM", ascii "SISMEMBER", ascii "SCARD",
      ascii "SPOP", ascii "SRANDMEMBER"] then .setFamily
  else if up = ascii "ZADD" then .zadd
  else .other

/-- The field-building logic of `handleConnection` for one decoded command:
starts with `zap.String("command", cmd.Name)` (the raw name), then, when
there is at least one argument, adds the family-specific fields.  Go length
guards (`len(cmd.Args) >= 2` etc.) appear as structural matches on the
argument list.  Note that inside the set family the `count` special case
compares the raw `cmd.Name` against the uppercase literals, as in the
source. -/
def classify (name : List Nat) (args : List (List Nat)) : List ZapField :=
  let fields := [ZapField.string (ascii "command") name]
  match args with
  | [] => fields
  | a0 :: rest0 =>
    match familyOf (upperBytes name) with
    | .set =>
      match rest0 with
      | [] => fields
      | a1 :: rest1 =>
        let f := fields ++ [ZapField.string (ascii "key") a0,
          ZapField.string (ascii "value") a1]
        match rest1 with
        | [] => f
        | _ :: _ =>
          if setOptions rest1 = [] then f
          else f ++ [ZapField.strings (ascii "options") (setOptions rest1)]
    | .getKeys => fields ++ [ZapField.strings (ascii "keys") (a0 :: rest0)]
    | .singleKey => fields ++ [ZapField.string (ascii "key") a0]
    | .incr =>
      match rest0 with
      | [] => fields
      | a1 :: _ => fields ++ [ZapField.string (ascii "key") a0,
          ZapField.string (ascii "amount") a1]
    | .hash =>
      match rest0 with
      | [] => fields
      | a1 :: rest1 =>
        let f := fields ++ [ZapField.string (ascii "key") a0,
          ZapField.string (ascii "field") a1]
        match rest1 with
        | [] => f
        | a2 :: _ => f ++ [ZapField.string (ascii "value") a2]
    | .push =>
      match rest0 with
      | [] => fields
      | _ :: _ => fields ++ [ZapField.string (ascii "key") a0,
          ZapField.strings (ascii "values") rest0]
    | .setFamily =>
      let f := fields ++ [ZapField.string (ascii "key") a0]
      match rest0 with
      | [] => f
      | a1 :: rest1 =>
        if name = ascii "SPOP" ∨ name = ascii "SRANDMEMBER" then
          f ++ [ZapField.string (ascii "count") a1]
        else f ++ [ZapField.strings (ascii "members") (a1 :: rest1)]
    | .zadd =>
      match rest0 with
      | [] => fields
      | [_] => fields
      | _ :: _ :: _ => fields ++ [ZapField.string (ascii "key") a0,
          ZapField.strings (ascii "score_member_pairs") (zaddPairs rest0)]
    | .other => fields ++ [ZapField.strings (ascii "args") (a0 :: rest0)]

/-- Modelled from the spec's wire grammar (section 6): the canonical encoding
of one bulk string, `$<len>\r\n<bytes>\r\n`. -/
def encodeBulk (s : List Nat) : List Nat :=
  36 :: (natDigits s.length ++ crlf ++ s ++ crlf)

/-- Modelled from the spec's wire grammar (section 6): the canonical encoding
of an array request `*<n>\r\n` followed by `n` bulk strings, the first being
the command name.  These byte sequences are the syntactically valid
array-request messages of the spec. -/
def encodeArray (name : List Nat) (args : List (List Nat)) : List Nat :=
  42 :: (natDigits (1 + args.length) ++ crlf ++ encodeBulk name
    ++ (args.map encodeBulk).flatten)

/-- A bulk-string frame whose two terminator bytes after the payload are
arbitrary bytes `t1 t2` instead of CR LF, used to probe the unchecked
two-byte terminator read. -/
def encodeBulkWith (s : List Nat) (t1 t2 : Nat) : List Nat :=
  36 :: (natDigits s.length ++ crlf ++ s ++ [t1, t2])

/-- A byte sequence with no embedded CR LF pair, i.e. a legal payload for a
simple-string, error or integer line. -/
def crlfFree : List Nat → Bool
  | [] => true
  | [_] => true
  | a :: b :: rest =>
    if a = 13 ∧ b = 10 then false else crlfFree (b :: rest)

theorem natDigitsAux_digit {fuel n b : Nat} (hn : n < fuel)
    (hb : b ∈ natDigitsAux fuel n) : 48 ≤ b ∧ b ≤ 57 := by
  induction fuel generalizing n with
  | zero => omega
  | succ fuel ih =>
    rw [natDigitsAux] at hb
    by_cases h10 : n < 10
    · rw [if_pos h10] at hb
      simp only [List.mem_singleton] at hb
      omega
    · rw [if_neg h10] at hb
      rcases List.mem_append.1 hb with hb | hb
      · exact ih (by omega) hb
      · simp only [List.mem_singleton] at hb
        omega

theorem natDigits_ne_nil (n : Nat) : natDigits n ≠ [] := by
  rw [natDigits, natDigitsAux]
  by_cases h10 : n < 10 <;> simp [h10]

theorem natDigitsAux_foldl (fuel : Nat) : ∀ n acc, n < fuel →
    List.foldl (fun acc d => acc * 10 + (d - 48)) acc (natDigitsAux fuel n)
      = acc * 10 ^ (natDigitsAux fuel n).length + n := by
  induction fuel with
  | zero => intro n acc h; omega
  | succ fuel ih =>
    intro n acc h
    rw [natDigitsAux]
    by_cases h10 : n < 10
    · rw [if_pos h10]
      simp only [List.foldl_cons, List.foldl_nil, List.length_singleton, pow_one]
      omega
    · rw [if_neg h10]
      rw [List.foldl_append, ih (n / 10) acc (by omega)]
      simp only [List.foldl_cons, List.foldl_nil, List.length_append,
        List.length_singleton, pow_succ, ← mul_assoc]
      generalize acc * 10 ^ (natDigitsAux fuel (n / 10)).length = A
      omega

theorem digitsToNat_natDigits (n : Nat) : digitsToNat (natDigits n) = n := by
  have h := natDigitsAux_foldl (n + 1) n 0 (Nat.lt_succ_self n)
  simpa [digitsToNat, natDigits] using h

theorem natDigits_isDigit {n b : Nat} (hb : b ∈ natDigits n) : isDigit b = true := by
  have h := natDigitsAux_digit (Nat.lt_succ_self n) hb
  rw [isDigit, if_pos h]

theorem takeDigits_digits_append {ds : List Nat} (h : ∀ b ∈ ds, isDigit b = true)
    (t : List Nat) : takeDigits (ds ++ 13 :: t) = (ds, 13 :: t) := by
  induction ds with
  | nil => simp [takeDigits, isDigit]
  | cons d ds ih =>
    have hd := h d (List.mem_cons_self d ds)
    have ih2 := ih (fun b hb => h b (List.mem_cons_of_mem d hb))
    simp [takeDigits, hd, ih2]

theorem scanIntFrom_natDigits (n : Nat) (l : List Nat)
    (h : n < 9223372036854775808) :
    scanIntFrom false (natDigits n ++ 13 :: 10 :: l) = some ((n : Int), l) := by
  have ht : takeDigits (natDigits n ++ 13 :: 10 :: l) = (natDigits n, 13 :: 10 :: l) :=
    takeDigits_digits_append (fun b hb => natDigits_isDigit hb) _
  have hrange : ¬(((n : Int)) < -9223372036854775808 ∨
      (9223372036854775808 : Int) ≤ ((n : Int))) := by
    omega
  rw [scanIntFrom, ht]
  simp only [digitsToNat_natDigits, Bool.false_eq_true, if_false]
  rw [if_neg (natDigits_ne_nil n), if_neg hrange]
  simp [matchCRLF]

theorem scanIntCRLF_natDigits (n : Nat) (l : List Nat)
    (h : n < 9223372036854775808) :
    scanIntCRLF (natDigits n ++ 13 :: 10 :: l) = some ((n : Int), l) := by
  obtain ⟨d, t, hdt⟩ := List.exists_cons_of_ne_nil (natDigits_ne_nil n)
  have hmem : d ∈ natDigits n := by
    rw [hdt]
    exact List.mem_cons_self d t
  have hd : 48 ≤ d ∧ d ≤ 57 := natDigitsAux_digit (Nat.lt_succ_self n) hmem
  rw [hdt, List.cons_append, scanIntCRLF, if_neg (by omega), if_neg (by omega),
    ← List.cons_append, ← hdt]
  exact scanIntFrom_natDigits n l h

theorem readFull_append (l r : List Nat) : readFull l.length (l ++ r) = some (l, r) := by
  induction l with
  | nil => rfl
  | cons b t ih => simp [readFull, ih]

theorem asciiInt_natCast (n : Nat) : asciiInt (n : Int) = natDigits n := by
  rw [asciiInt, if_neg (by omega), Int.toNat_natCast]

theorem crlfFree_cons {a : Nat} {l : List Nat} (h : crlfFree (a :: l) = true) :
    crlfFree l = true := by
  cases l with
  | nil => rfl
  | cons b r =>
    rw [crlfFree] at h
    by_cases hab : a = 13 ∧ b = 10
    · rw [if_pos hab] at h
      exact absurd h (by simp)
    · rwa [if_neg hab] at h

theorem crlfFree_head13 {b : Nat} {r : List Nat}
    (h : crlfFree (13 :: b :: r) = true) : b ≠ 10 := by
  intro hb
  subst hb
  rw [crlfFree, if_pos ⟨rfl, rfl⟩] at h
  cases h

theorem readUntilCRLF_append {line : List Nat} (rest : List Nat)
    (h : crlfFree line = true) :
    readUntilCRLF (line ++ 13 :: 10 :: rest) = some (line, rest) := by
  induction line with
  | nil => simp [readUntilCRLF]
  | cons a l ih =>
    have ih2 := ih (crlfFree_cons h)
    cases l with
    | nil => simp [readUntilCRLF]
    | cons b l2 =>
      have hab : ¬(a = 13 ∧ b = 10) := by
        intro hab
        rw [crlfFree, if_pos hab] at h
        cases h
      simp only [List.cons_append] at ih2 ⊢
      rw [readUntilCRLF, if_neg hab, ih2]
      rfl

theorem goRead2_crlf (l : List Nat) : goRead2 (13 :: 10 :: l) = some l := rfl

theorem goRead2_pair (x y : Nat) (l : List Nat) : goRead2 (x :: y :: l) = some l := rfl

theorem scanDollarIntCRLF_encodeBulkWith (a : List Nat) (x y : Nat) (l : List Nat)
    (h : a.length < 9223372036854775808) :
    scanDollarIntCRLF (encodeBulkWith a x y ++ l)
      = some ((a.length : Int), a ++ x :: y :: l) := by
  rw [encodeBulkWith, List.cons_append, scanDollarIntCRLF, if_pos rfl]
  have hshape : (natDigits a.length ++ crlf ++ a ++ [x, y]) ++ l
      = natDigits a.length ++ 13 :: 10 :: (a ++ x :: y :: l) := by
    simp [crlf]
  rw [hshape, scanIntCRLF_natDigits a.length _ h]

theorem scanDollarIntCRLF_encodeBulk (a : List Nat) (l : List Nat)
    (h : a.length < 9223372036854775808) :
    scanDollarIntCRLF (encodeBulk a ++ l)
      = some ((a.length : Int), a ++ 13 :: 10 :: l) := by
  rw [encodeBulk, List.cons_append, scanDollarIntCRLF, if_pos rfl]
  have hshape : (natDigits a.length ++ crlf ++ a ++ crlf) ++ l
      = natDigits a.length ++ 13 :: 10 :: (a ++ 13 :: 10 :: l) := by
    simp [crlf]
  rw [hshape, scanIntCRLF_natDigits a.length _ h]

theorem parseArgs_encode (as : List (List Nat)) :
    ∀ (name buf rest : List Nat) (acc : List (List Nat)),
    (∀ a ∈ as, a.length < 9223372036854775808) →
    parseArgs name as.length ((as.map encodeBulk).flatten ++ rest) buf acc =
      .ok ⟨name, buf ++ (as.map encodeBulk).flatten, acc ++ as⟩ rest := by
  induction as with
  | nil =>
    intro name buf rest acc h
    simp [parseArgs]
  | cons a as ih =>
    intro name buf rest acc h
    have ha := h a (List.mem_cons_self a as)
    have hrest : ∀ b ∈ as, b.length < 9223372036854775808 :=
      fun b hb => h b (List.mem_cons_of_mem a hb)
    have hnn : ¬((a.length : Int) < 0) := by omega
    simp only [List.map_cons, List.flatten_cons, List.length_cons, List.append_assoc]
    simp only [parseArgs, scanDollarIntCRLF_encodeBulk a _ ha, if_neg hnn,
      asciiInt_natCast, Int.toNat_natCast, readFull_append, goRead2_crlf]
    rw [ih name _ rest (acc ++ [a]) hrest]
    simp [encodeBulk, crlf]

/-- Helper: `1 ≤ 1 + k` as an `Int` fact used for the argument-count guard. -/
theorem argCount_ge_one (k : Nat) : ¬((1 + k : Nat) : Int) < 1 := by
  omega

/-- C1: for every syntactically valid array-request byte sequence (the
canonical wire encoding `encodeArray name args` of a command name and its
arguments), `ReadCommand` succeeds and the resulting `Command.Message`
(rawBytes) is exactly the original input bytes, with all length prefixes and
line terminators; the name and arguments decode as encoded and nothing
beyond the message is consumed.  The size bounds (2^63) reflect that Go
slice lengths are `int`-bounded, so every realisable input satisfies them. -/
theorem readCommand_encodeArray (name : List Nat) (args : List (List Nat))
    (rest : List Nat)
    (hn : 1 + args.length < 9223372036854775808)
    (hname : name.length < 9223372036854775808)
    (hargs : ∀ a ∈ args, a.length < 9223372036854775808) :
    readCommand (encodeArray name args ++ rest)
      = .ok ⟨name, encodeArray name args, args⟩ rest := by
  rw [encodeArray, List.cons_append, readCommand, if_pos rfl]
  have hshape : (natDigits (1 + args.length) ++ crlf ++ encodeBulk name
      ++ (args.map encodeBulk).flatten) ++ rest
      = natDigits (1 + args.length)
        ++ 13 :: 10 :: (encodeBulk name ++ ((args.map encodeBulk).flatten ++ rest)) := by
    simp [crlf]
  have hnn : ¬((name.length : Int) < 0) := by omega
  have hk : (((1 + args.length : Nat) : Int) - 1).toNat = args.length := by
    omega
  rw [hshape]
  simp only [parseArray, scanIntCRLF_natDigits _ _ hn,
    if_neg (argCount_ge_one args.length),
    scanDollarIntCRLF_encodeBulk name _ hname, if_neg hnn,
    asciiInt_natCast, Int.toNat_natCast, readFull_append, goRead2_crlf, hk]
  rw [parseArgs_encode args name _ rest [] hargs]
  simp [encodeArray, encodeBulk, crlf, asciiInt_natCast]

/-- Witness for C1: the round-trip theorem applied to the concrete command
`SET x 1` followed by one extra byte of stream. -/
theorem readCommand_encodeArray_witness :
    readCommand (encodeArray (ascii "SET") [ascii "x", ascii "1"] ++ [77])
      = .ok ⟨ascii "SET", encodeArray (ascii "SET") [ascii "x", ascii "1"],
          [ascii "x", ascii "1"]⟩ [77] :=
  readCommand_encodeArray (ascii "SET") [ascii "x", ascii "1"] [77]
    (by norm_num) (by decide) (by decide)

/-- C2 (code bug): a top-level bulk-string header with a negative length
other than `-1`, such as `$-2\r\n`, reaches `make([]byte, length)` with a
negative size and panics the process instead of returning an error; the same
happens for a negative bulk length inside an array.  Other malformed inputs
(unknown leading byte, non-numeric count) do return errors. -/
theorem readCommand_negative_bulk_length_panics :
    readCommand (ascii "$-2\r\n") = .panicked ∧
    readCommand (ascii "*1\r\n$-2\r\n") = .panicked ∧
    readCommand (ascii "?PING\r\n") = .err ∧
    readCommand (ascii "*abc\r\n") = .err :=
  ⟨rfl, rfl, rfl, rfl⟩

/-- C3 (code bug): a stream that ends mid payload does fail (`io.ReadFull`
reports the short read), but a stream that closes mid CRLF terminator does
not: with one byte left, `reader.Read(make([]byte, 2))` returns 1 byte and
no error, the parser never checks the count, and `ReadCommand` returns a
fully-populated Command whose rawBytes were silently padded with `\r\n`. -/
theorem readCommand_short_read_behaviour :
    readCommand (ascii "*1\r\n$3\r\nSE") = .err ∧
    readCommand (ascii "$3\r\nab") = .err ∧
    readCommand (ascii "*1\r\n$3\r\nSET\r")
      = .ok ⟨ascii "SET", ascii "*1\r\n$3\r\nSET\r\n", []⟩ [] :=
  ⟨rfl, rfl, rfl⟩

/-- Counterexample for C5: the decoded command `spop k 2` (lowercase name)
is classified with `members=["2"]`, not with a `count` field, because the
inner special case compares the raw name against the uppercase literals. -/
theorem classify_spop_lowercase_counterexample :
    classify (ascii "spop") [ascii "k", ascii "2"] =
      [ZapField.string (ascii "command") (ascii "spop"),
       ZapField.string (ascii "key") (ascii "k"),
       ZapField.strings (ascii "members") [ascii "2"]] ∧
    ZapField.string (ascii "count") (ascii "2")
      ∉ classify (ascii "spop") [ascii "k", ascii "2"] := by
  decide

/-- C5 (amended): family dispatch is on the uppercased name, so any casing
of `spop`/`srandmember` selects the set family, but the `count` special case
compares the raw name: exactly-uppercase `SPOP`/`SRANDMEMBER` classify
`args[1]` as `count`, while every other casing classifies `args[1:]` as
`members`. -/
theorem classify_setfamily_count_case (name a0 a1 : List Nat)
    (rest : List (List Nat))
    (h : upperBytes name = ascii "SPOP" ∨ upperBytes name = ascii "SRANDMEMBER") :
    classify name (a0 :: a1 :: rest) =
      [ZapField.string (ascii "command") name, ZapField.string (ascii "key") a0] ++
      (if name = ascii "SPOP" ∨ name = ascii "SRANDMEMBER"
        then [ZapField.string (ascii "count") a1]
        else [ZapField.strings (ascii "members") (a1 :: rest)]) := by
  have hfam : familyOf (upperBytes name) = Family.setFamily := by
    rcases h with h | h <;> rw [h] <;> decide
  simp only [classify, hfam]
  split <;> simp

/-- Witness for C5 (amended): the uppercase `SRANDMEMBER s 3` command is
classified with `count="3"`. -/
theorem classify_setfamily_count_case_witness :
    classify (ascii "SRANDMEMBER") [ascii "s", ascii "3"] =
      [ZapField.string (ascii "command") (ascii "SRANDMEMBER"),
       ZapField.string (ascii "key") (ascii "s"),
       ZapField.string (ascii "count") (ascii "3")] := by
  have h := classify_setfamily_count_case (ascii "SRANDMEMBER") (ascii "s")
    (ascii "3") [] (Or.inr (by decide))
  rw [if_pos (Or.inr rfl)] at h
  simpa using h

/-- Counterexample for C6: decoding the Error message `-oops\r\n` yields the
name `ERROR: oops`, not the bare line `oops`: for `-` messages the parser
prepends the literal `ERROR: `. -/
theorem readCommand_error_prefix_counterexample :
    readCommand (ascii "-oops\r\n")
      = .ok ⟨ascii "ERROR: oops", ascii "-oops\r\n", []⟩ [] ∧
    ascii "ERROR: oops" ≠ ascii "oops" :=
  ⟨rfl, by decide⟩

/-- C6 (amended): for SimpleString (`+`) and Integer (`:`) messages the
name is exactly the line between the type byte and the CRLF delimiter, with
CRLF excluded and nothing added; for Error (`-`) messages the name is that
line prefixed with `ERROR: `.  In all three cases the rawBytes are the full
message including the type byte and CRLF. -/
theorem readCommand_line_types (line rest : List Nat)
    (h : crlfFree line = true) :
    readCommand (43 :: (line ++ crlf ++ rest))
      = .ok ⟨line, 43 :: (line ++ crlf), []⟩ rest ∧
    readCommand (58 :: (line ++ crlf ++ rest))
      = .ok ⟨line, 58 :: (line ++ crlf), []⟩ rest ∧
    readCommand (45 :: (line ++ crlf ++ rest))
      = .ok ⟨ascii "ERROR: " ++ line, 45 :: (line ++ crlf), []⟩ rest := by
  have hr := readUntilCRLF_append rest h
  refine ⟨?_, ?_, ?_⟩ <;>
    simp [readCommand, parseSimpleString, parseInteger, parseError, crlf, hr]

/-- Witness for C6 (amended): the simple string `+OK\r\n` decodes to the
name `OK` with one extra stream byte left over. -/
theorem readCommand_line_types_witness :
    readCommand (43 :: (ascii "OK" ++ crlf ++ [77]))
      = .ok ⟨ascii "OK", 43 :: (ascii "OK" ++ crlf), []⟩ [77] :=
  (readCommand_line_types (ascii "OK") [77] (by decide)).1

/-- C7: the example input `*3\r\n$3\r\nSET\r\n$1\r\nx\r\n$1\r\n1\r\n`
decodes through the array (Request) path to name `SET` and args
`["x","1"]` in order, consuming the whole message. -/
theorem readCommand_set_example :
    readCommand (ascii "*3\r\n$3\r\nSET\r\n$1\r\nx\r\n$1\r\n1\r\n")
      = .ok ⟨ascii "SET", ascii "*3\r\n$3\r\nSET\r\n$1\r\nx\r\n$1\r\n1\r\n",
          [ascii "x", ascii "1"]⟩ [] :=
  rfl

/-- C8: classifying the decoded `SET x 1 EX 10 NX` yields
`key="x"`, `value="1"`, `options=["EX=10","NX"]` (after the leading
`command` field); in the option scan, `EX`/`PX`/`EXAT`/`PXAT` consume the
following argument as `TOKEN=value`, `NX`/`XX`/`KEEPTTL` stand alone, and
unrecognized tokens are ignored. -/
theorem classify_set_options :
    classify (ascii "SET") [ascii "x", ascii "1", ascii "EX", ascii "10", ascii "NX"] =
      [ZapField.string (ascii "command") (ascii "SET"),
       ZapField.string (ascii "key") (ascii "x"),
       ZapField.string (ascii "value") (ascii "1"),
       ZapField.strings (ascii "options") [ascii "EX=10", ascii "NX"]] ∧
    (∀ t v rest, upperBytes t ∈ [ascii "EX", ascii "PX", ascii "EXAT", ascii "PXAT"] →
       setOptions (t :: v :: rest) = (upperBytes t ++ 61 :: v) :: setOptions rest) ∧
    (∀ t rest, upperBytes t ∈ [ascii "NX", ascii "XX", ascii "KEEPTTL"] →
       setOptions (t :: rest) = upperBytes t :: setOptions rest) ∧
    (∀ t rest, upperBytes t ∉ [ascii "EX", ascii "PX", ascii "EXAT", ascii "PXAT"] →
       upperBytes t ∉ [ascii "NX", ascii "XX", ascii "KEEPTTL"] →
       setOptions (t :: rest) = setOptions rest) := by
  refine ⟨rfl, ?_, ?_, ?_⟩
  · intro t v rest h
    rw [setOptions, if_pos h]
  · intro t rest h
    have hne : upperBytes t ∉ [ascii "EX", ascii "PX", ascii "EXAT", ascii "PXAT"] := by
      intro hc
      simp only [List.mem_cons, List.not_mem_nil, or_false] at h hc
      rcases h with h | h | h <;> rw [h] at hc <;> exact absurd hc (by decide)
    cases rest with
    | nil => rw [setOptions.eq_2, if_neg hne, if_pos h]
    | cons v r => rw [setOptions.eq_3, if_neg hne, if_pos h]
  · intro t rest h1 h2
    cases rest with
    | nil => rw [setOptions.eq_2, if_neg h1, if_neg h2]
    | cons v r => rw [setOptions.eq_3, if_neg h1, if_neg h2]

/-- Witness for C8: the option-scan clauses applied at concrete tokens. -/
theorem classify_set_options_witness :
    setOptions [ascii "px", ascii "9"] = [ascii "PX=9"] ∧
    setOptions [ascii "keepttl"] = [ascii "KEEPTTL"] ∧
    setOptions [ascii "GET", ascii "q"] = setOptions [ascii "q"] := by
  obtain ⟨-, h1, h2, h3⟩ := classify_set_options
  refine ⟨?_, ?_, ?_⟩
  · rw [h1 (ascii "px") (ascii "9") [] (by decide)]
    decide
  · rw [h2 (ascii "keepttl") [] (by decide)]
    decide
  · exact h3 (ascii "GET") [ascii "q"] (by decide) (by decide)

/-- C9: the top-level nil bulk string `$-1\r\n` decodes to the nil Command
(the NilBulk short circuit) with empty args, rawBytes exactly `$-1\r\n`, and
no byte beyond the header consumed, whatever follows on the stream. -/
theorem readCommand_nil_bulk (rest : List Nat) :
    readCommand (ascii "$-1\r\n" ++ rest)
      = .ok ⟨ascii "nil", ascii "$-1\r\n", []⟩ rest :=
  rfl

/-- Witness for C9: the nil bulk string followed by one extra byte. -/
theorem readCommand_nil_bulk_witness :
    readCommand (ascii "$-1\r\n" ++ [43])
      = .ok ⟨ascii "nil", ascii "$-1\r\n", []⟩ [43] :=
  readCommand_nil_bulk [43]

/-- C10: after each bulk-string payload (top-level bulk string, array
command name, array argument) the decoder consumes exactly two bytes,
whatever their values, and appends the literal bytes `\r\n` to rawBytes: for
every payload `a` (and array argument `b`) whose terminator positions hold
arbitrary bytes `x y` / `x2 y2`, the message is accepted, exactly those two
bytes are consumed (the rest of the stream is untouched), and the rawBytes
are the canonical frame with CR LF in their place. -/
theorem readCommand_terminator_unchecked (a b : List Nat) (x y x2 y2 : Nat)
    (rest : List Nat)
    (ha : a.length < 9223372036854775808)
    (hb : b.length < 9223372036854775808) :
    readCommand (encodeBulkWith a x y ++ rest)
      = .ok ⟨a, encodeBulk a, []⟩ rest ∧
    readCommand (42 :: (natDigits 2 ++ crlf)
        ++ encodeBulkWith a x y ++ encodeBulkWith b x2 y2 ++ rest)
      = .ok ⟨a, 42 :: (natDigits 2 ++ crlf) ++ encodeBulk a ++ encodeBulk b, [b]⟩
          rest := by
  have hnn : ¬((a.length : Int) < 0) := by omega
  have hnnb : ¬((b.length : Int) < 0) := by omega
  have hm1 : ¬((a.length : Int) = -1) := by omega
  constructor
  · rw [encodeBulkWith, List.cons_append, readCommand]
    rw [if_neg (by norm_num), if_pos rfl]
    have hshape : (natDigits a.length ++ crlf ++ a ++ [x, y]) ++ rest
        = natDigits a.length ++ 13 :: 10 :: (a ++ x :: y :: rest) := by
      simp [crlf]
    rw [hshape]
    simp only [parseBulkString, scanIntCRLF_natDigits a.length _ ha, if_neg hm1,
      if_neg hnn, asciiInt_natCast, Int.toNat_natCast, readFull_append, goRead2_pair]
    simp [encodeBulk, crlf]
  · simp only [crlf, List.cons_append, List.nil_append, List.append_assoc]
    rw [readCommand, if_pos rfl]
    have h2 : (2 : Nat) < 9223372036854775808 := by norm_num
    have hlt : ¬(((2 : Nat) : Int) < 1) := by norm_num
    have hk1 : (((2 : Nat) : Int) - 1).toNat = 1 := by norm_num
    simp only [parseArray, scanIntCRLF_natDigits 2 _ h2, if_neg hlt,
      scanDollarIntCRLF_encodeBulkWith a x y _ ha, if_neg hnn,
      asciiInt_natCast, Int.toNat_natCast, readFull_append, goRead2_pair, hk1,
      parseArgs, scanDollarIntCRLF_encodeBulkWith b x2 y2 _ hb, if_neg hnnb]
    simp [encodeBulk, crlf]

/-- Witness for C10: concrete payloads `A` and `k` with the terminator
positions filled with the letters `XY` and `AB` instead of CR LF; both
messages are still accepted and their rawBytes show CR LF. -/
theorem readCommand_terminator_unchecked_witness :
    readCommand (encodeBulkWith (ascii "A") 88 89 ++ [50])
      = .ok ⟨ascii "A", encodeBulk (ascii "A"), []⟩ [50] :=
  (readCommand_terminator_unchecked (ascii "A") (ascii "k") 88 89 65 66 [50]
    (by decide) (by decide)).1

end RedisLogger
